import Mathlib

/-!
Shallow embedding of the hospitalist-app `patients` Django application
(`src/patients/`), covering the code that the claims of the specification concern:

* quiet-hours computation (`admin.py`: `_is_quiet_hours`, `_next_visible_time`);
* the patient lifecycle helpers (`models.py`: `Patient.discharge`,
  `Patient.archive`) and the admin bulk lifecycle actions (`admin.py`:
  `mark_active`, `discharge_now`, `archive_now`);
* the auto-archive management command
  (`management/commands/auto_archive_patients.py`);
* the notification model and its operations (`models.py`: `Notification`,
  `views.py`: the notification endpoints, `admin.py`: `_notify_assignment`
  and the notification admin actions);
* the bulk attending reassignment action (`admin.py`:
  `bulk_set_or_clear_attending`) together with the `post_save` audit handler
  that is actually registered (`audit.py`: `_audit_patient_attending_post`;
  `apps.py` `ready()` imports only `patients.audit`, so the handlers of
  `patients/signals.py` — including the `_ensure_active_watch` pipeline —
  never register);
* the watch-ensure helper from `patients/signals.py` itself.

Time is modelled as integer minutes of local wall-clock time (the
project-local timezone of `timezone.localtime`); lifecycle/auto-archive
timestamps use integer days.  `Int` division and modulus in Lean are
Euclidean, which agrees with the Python floor semantics for the positive
divisors used here.  Users and patients are identified by natural numbers;
the placeholder user `to_be_assigned` is a distinguished id passed as the
parameter `tba`.
-/

namespace Hospitalist

/-! ### Local wall-clock time (minutes) -/

/-- Calendar day of a local timestamp in minutes (floor division). -/
def localDay (now : Int) : Int := now / 1440

/-- Hour-of-day (0..23) of a local timestamp in minutes. -/
def localHour (now : Int) : Int := now % 1440 / 60

/-- Minute-of-hour (0..59) of a local timestamp in minutes. -/
def localMinute (now : Int) : Int := now % 60

/-! ### Quiet hours (`admin.py` `_is_quiet_hours`, `_next_visible_time`)

`QUIET_START_HOUR` / `QUIET_END_HOUR` are configuration (defaults 16 and 7);
they are passed as the parameters `startH` / `endH`. -/

/-- Embeds `_is_quiet_hours` (admin.py): true if the local hour is inside
the configured window.  `start == end` disables the window; `start < end`
is the same-day window `[start, end)`; `start > end` wraps midnight. -/
def isQuietHours (startH endH : Nat) (now : Int) : Bool :=
  let h := localHour now
  if startH = endH then false
  else if startH < endH then decide ((startH : Int) ≤ h ∧ h < (endH : Int))
  else decide ((startH : Int) ≤ h ∨ h < (endH : Int))

/-- Embeds `_next_visible_time` (admin.py): `now` when outside quiet hours,
otherwise the end-hour boundary (minute 0) today if the local hour is below
the end hour, else tomorrow. -/
def nextVisibleTime (startH endH : Nat) (now : Int) : Int :=
  if ¬ isQuietHours startH endH now then now
  else
    let deliverDay := if localHour now < (endH : Int) then localDay now else localDay now + 1
    deliverDay * 1440 + (endH : Int) * 60

/-- States the quiet-hours window membership exactly as the specification
words it: always false when `start = end`, local hour in `[start, end)` when
`start < end`, and local hour `≥ start` or local hour `< end` when
`start > end`. -/
def quietSpecMembership (startH endH : Nat) (now : Int) : Prop :=
  (startH < endH ∧ (startH : Int) ≤ localHour now ∧ localHour now < (endH : Int))
  ∨ (endH < startH ∧ ((startH : Int) ≤ localHour now ∨ localHour now < (endH : Int)))

instance (startH endH : Nat) (now : Int) : Decidable (quietSpecMembership startH endH now) := by
  unfold quietSpecMembership
  exact inferInstance

/-! ### Patient lifecycle (`models.py`, `admin.py`) -/

/-- Embeds `PatientStatus` (models.py). -/
inductive PStatus where
  | active
  | discharged
  | archived
deriving DecidableEq, Repr

/-- Embeds the lifecycle-relevant fields of `Patient` (models.py):
timestamps are nullable and measured in days for auto-archive arithmetic. -/
structure LPatient where
  status : PStatus
  discharged_at : Option Int
  archived_at : Option Int
deriving DecidableEq, Repr

/-- A freshly admitted patient: `status` defaults to `ACTIVE`, both
timestamps are null (models.py field defaults). -/
def initPatient : LPatient := ⟨.active, none, none⟩

/-- Embeds `Patient.discharge` (models.py): set status to `DISCHARGED` and
stamp `discharged_at` only when it is currently null. -/
def discharge (p : LPatient) (when : Int) : LPatient :=
  { p with
    status := .discharged
    discharged_at := if p.discharged_at = none then some when else p.discharged_at }

/-- Embeds `Patient.archive` (models.py): set status to `ARCHIVED` and
stamp `archived_at` only when it is currently null. -/
def archive (p : LPatient) (when : Int) : LPatient :=
  { p with
    status := .archived
    archived_at := if p.archived_at = none then some when else p.archived_at }

/-- Embeds `PatientAdmin.mark_active` (admin.py), per row of the bulk
update: status `ACTIVE`, both timestamps cleared. -/
def markActive (_p : LPatient) : LPatient := ⟨.active, none, none⟩

/-- Embeds `PatientAdmin.discharge_now` (admin.py), per row of the bulk
`queryset.update(status=DISCHARGED, discharged_at=now)`: the timestamp is
written unconditionally. -/
def dischargeNow (p : LPatient) (now : Int) : LPatient :=
  { p with status := .discharged, discharged_at := some now }

/-- Embeds `PatientAdmin.archive_now` (admin.py), per row of the bulk
`queryset.update(status=ARCHIVED, archived_at=now)`: the timestamp is
written unconditionally. -/
def archiveNow (p : LPatient) (now : Int) : LPatient :=
  { p with status := .archived, archived_at := some now }

/-- One lifecycle operation reachable from the model helpers and the admin
bulk actions. -/
inductive LOp where
  | markActive
  | discharge (when : Int)
  | archive (when : Int)
  | dischargeNow (now : Int)
  | archiveNow (now : Int)
deriving DecidableEq, Repr

def applyLOp (p : LPatient) : LOp → LPatient
  | .markActive => markActive p
  | .discharge w => discharge p w
  | .archive w => archive p w
  | .dischargeNow n => dischargeNow p n
  | .archiveNow n => archiveNow p n

/-- Runs a sequence of lifecycle operations. -/
def runLOps (p : LPatient) : List LOp → LPatient
  | [] => p
  | op :: ops => runLOps (applyLOp p op) ops

/-- The lifecycle invariant that actually holds on the code: an `ACTIVE`
patient has both timestamps null, a `DISCHARGED` patient has `discharged_at`
set, an `ARCHIVED` patient has `archived_at` set. -/
def LInv (p : LPatient) : Prop :=
  (p.status = .active → p.discharged_at = none ∧ p.archived_at = none)
  ∧ (p.status = .discharged → p.discharged_at ≠ none)
  ∧ (p.status = .archived → p.archived_at ≠ none)

instance (p : LPatient) : Decidable (LInv p) := by
  unfold LInv; exact inferInstance

/-! ### Auto-archive sweep (`management/commands/auto_archive_patients.py`) -/

/-- Row-level eligibility of the auto-archive queryset filter:
`status=DISCHARGED, discharged_at__lte=now - timedelta(days=grace_days)`
(a null `discharged_at` never satisfies the `lte` lookup).  Time unit: days. -/
def autoArchiveEligible (graceDays now : Int) (p : LPatient) : Bool :=
  decide (p.status = .discharged) &&
    match p.discharged_at with
    | some d => decide (d ≤ now - graceDays)
    | none => false

/-- Output of one sweep run: the new patient table, the reported count and
the success message written to stdout. -/
structure SweepResult where
  patients : List LPatient
  count : Nat
  message : String
deriving DecidableEq, Repr

/-- Embeds `Command.handle` (auto_archive_patients.py): count the eligible
rows; with zero rows report success and stop; otherwise bulk-update them to
`ARCHIVED` with `archived_at=now` and report the count. -/
def autoArchivePatients (db : List LPatient) (graceDays now : Int) : SweepResult :=
  let count := (db.filter (autoArchiveEligible graceDays now)).length
  if count = 0 then
    ⟨db, 0, "No patients to archive."⟩
  else
    ⟨db.map (fun p => if autoArchiveEligible graceDays now p then archiveNow p now else p),
     count,
     "Archived " ++ toString count ++ " patient(s)."⟩

/-! ### Notifications (`models.py` `Notification`) -/

/-- Embeds `Notification.Level` (models.py). -/
inductive NLevel where
  | info
  | warning
  | critical
deriving DecidableEq, Repr

/-- Embeds `Notification.Kind` (models.py). -/
inductive NKind where
  | generic
  | assignment
deriving DecidableEq, Repr

/-- Embeds a `Notification` row (models.py).  The fields `acknowledged_at`
and `acknowledged_by` are modelled from the spec: the `Notification` model
in `src/patients/models.py` does not declare them, although `views.py` and
`context_processors.py` read and write them (spec §3 lists `acknowledged_at`
as a nullable timestamp on every notification). -/
structure Notification where
  id : Nat
  recipient : Nat
  message : String
  level : NLevel
  kind : NKind
  patient : Option Nat
  created_at : Int
  visible_at : Int
  read_at : Option Int
  acknowledged_at : Option Int
  acknowledged_by : Option Nat
deriving DecidableEq, Repr

/-- Auto-increment primary key for a new notification row. -/
def nextId (db : List Notification) : Nat :=
  db.foldr (fun n acc => max (n.id + 1) acc) 0

/-- Embeds `Notification.push` (models.py): create one row with the given
visibility gate; `read_at` (and the acknowledgement fields) start null. -/
def push (db : List Notification) (recipient : Nat) (message : String)
    (level : NLevel) (patient : Option Nat) (created visible : Int)
    (kind : NKind) : List Notification :=
  db ++ [{ id := nextId db, recipient := recipient, message := message,
           level := level, kind := kind, patient := patient,
           created_at := created, visible_at := visible,
           read_at := none, acknowledged_at := none, acknowledged_by := none }]

/-- Renders the assignment message of `_notify_assignment` (admin.py) for
the abstract patient id (the concrete code interpolates MRN, name, location
and diagnosis; none of the claims depend on the text). -/
def assignmentMessage (pid : Nat) : String :=
  "New patient assigned to you: patient #" ++ toString pid ++ "."

/-- Tests the dedup predicate of `_notify_assignment` (admin.py): an
ASSIGNMENT-kind notification of this patient that is still pending
(`visible_at__gt=now`). -/
def isPendingAssign (now : Int) (pid : Nat) (n : Notification) : Bool :=
  decide (n.kind = .assignment ∧ n.patient = some pid ∧ now < n.visible_at)

/-- Tests whether a row is an ASSIGNMENT-kind notification of this patient
(pending or not). -/
def isAssignFor (pid : Nat) (n : Notification) : Bool :=
  decide (n.kind = .assignment ∧ n.patient = some pid)

/-- Number of pending ASSIGNMENT notifications of one patient at `now`. -/
def pendingAssignCount (db : List Notification) (now : Int) (pid : Nat) : Nat :=
  (db.filter (isPendingAssign now pid)).length

/-- Embeds `PatientAdmin._notify_assignment` (admin.py): compute the
quiet-hours-adjusted visibility, delete every pending ASSIGNMENT
notification of the patient, then push one new ASSIGNMENT notification to
the new attending. -/
def notifyAssignment (startH endH : Nat) (db : List Notification) (now : Int)
    (patientId recipientId : Nat) : List Notification :=
  let visible := nextVisibleTime startH endH now
  let remaining := db.filter (fun n => ! isPendingAssign now patientId n)
  push remaining recipientId (assignmentMessage patientId) .info (some patientId)
    now visible .assignment

/-- The row `_notify_assignment` pushes (spelled out for reasoning about
the table it produces). -/
def assignPushed (startH endH : Nat) (db : List Notification) (now : Int)
    (pid rid : Nat) : Notification :=
  { id := nextId (db.filter (fun n => ! isPendingAssign now pid n)),
    recipient := rid, message := assignmentMessage pid, level := .info,
    kind := .assignment, patient := some pid, created_at := now,
    visible_at := nextVisibleTime startH endH now,
    read_at := none, acknowledged_at := none, acknowledged_by := none }

/-- A step of the notification subsystem relevant to the pending-dedup
invariant: time advances, or some patient is (re)assigned and
`_notify_assignment` runs at the current time. -/
inductive NStep where
  | advance (d : Nat)
  | notify (patientId recipientId : Nat)
deriving DecidableEq, Repr

/-- Notification table plus the current time. -/
structure NState where
  db : List Notification
  now : Int
deriving DecidableEq, Repr

def applyNStep (startH endH : Nat) (s : NState) : NStep → NState
  | .advance d => { s with now := s.now + (d : Int) }
  | .notify pid rid => { s with db := notifyAssignment startH endH s.db s.now pid rid }

/-- Runs a sequence of notification steps. -/
def runNSteps (startH endH : Nat) (s : NState) : List NStep → NState
  | [] => s
  | st :: sts => runNSteps startH endH (applyNStep startH endH s st) sts

/-! ### Field-restricted saves (`save(update_fields=...)`) -/

/-- Names one column of the `Notification` table. -/
inductive NField where
  | recipient
  | message
  | level
  | kind
  | patient
  | created_at
  | visible_at
  | read_at
  | acknowledged_at
  | acknowledged_by
deriving DecidableEq, Repr

/-- Copies one field from the in-memory object `src` onto the stored row
`dst`. -/
def writeField (f : NField) (src dst : Notification) : Notification :=
  match f with
  | .recipient => { dst with recipient := src.recipient }
  | .message => { dst with message := src.message }
  | .level => { dst with level := src.level }
  | .kind => { dst with kind := src.kind }
  | .patient => { dst with patient := src.patient }
  | .created_at => { dst with created_at := src.created_at }
  | .visible_at => { dst with visible_at := src.visible_at }
  | .read_at => { dst with read_at := src.read_at }
  | .acknowledged_at => { dst with acknowledged_at := src.acknowledged_at }
  | .acknowledged_by => { dst with acknowledged_by := src.acknowledged_by }

/-- Embeds `obj.save(update_fields=fields)`: the row whose primary key
matches the object receives exactly the listed fields from the object;
every other row is untouched. -/
def saveUpdate (db : List Notification) (obj : Notification)
    (fields : List NField) : List Notification :=
  db.map (fun r => if r.id = obj.id then fields.foldl (fun acc f => writeField f obj acc) r else r)

/-- Embeds `Notification.mark_read` (models.py): set `read_at` and save
with `update_fields=["read_at"]`. -/
def markRead (db : List Notification) (o : Notification) (when : Int) : List Notification :=
  saveUpdate db { o with read_at := some when } [NField.read_at]

/-- Embeds `Notification.mark_unread` (models.py): clear `read_at` and save
with `update_fields=["read_at"]`. -/
def markUnread (db : List Notification) (o : Notification) : List Notification :=
  saveUpdate db { o with read_at := none } [NField.read_at]

/-! ### Notification endpoints (`views.py`, `admin.py` actions) -/

/-- Embeds `get_object_or_404(Notification, pk=pk, recipient=request.user)`. -/
def findNotif (db : List Notification) (pk user : Nat) : Option Notification :=
  db.find? (fun n => decide (n.id = pk ∧ n.recipient = user))

/-- Embeds `notification_mark_read` (views.py): fetch the row of the recipient,
call `mark_read` only when `read_at` is null. -/
def notificationMarkReadView (db : List Notification) (pk user : Nat) (now : Int) :
    List Notification :=
  match findNotif db pk user with
  | none => db
  | some n => if n.read_at = none then markRead db n now else db

/-- Embeds `notification_mark_unread` (views.py): fetch the row of the
recipient, call `mark_unread` only when `read_at` is non-null. -/
def notificationMarkUnreadView (db : List Notification) (pk user : Nat) :
    List Notification :=
  match findNotif db pk user with
  | none => db
  | some n => if n.read_at = none then db else markUnread db n

/-- Embeds `notification_ack` (views.py): fetch the row of the recipient; when
`acknowledged_at` is null stamp it (and `acknowledged_by`) and save those
two fields; always answer `ok` with the acknowledgement time.  `none`
models the 404 on a foreign or missing row. -/
def notificationAck (db : List Notification) (pk user : Nat) (now : Int) :
    Option (List Notification × Int) :=
  match findNotif db pk user with
  | none => none
  | some n =>
    match n.acknowledged_at with
    | some t => some (db, t)
    | none =>
        some (saveUpdate db { n with acknowledged_at := some now, acknowledged_by := some user }
                [NField.acknowledged_at, NField.acknowledged_by], now)

/-- Embeds `notifications_mark_all_read` (views.py): bulk-update `read_at`
on the visible unread rows of the requesting user. -/
def notificationsMarkAllRead (db : List Notification) (user : Nat) (now : Int) :
    List Notification :=
  db.map (fun n =>
    if decide (n.recipient = user ∧ n.visible_at ≤ now ∧ n.read_at = none)
    then { n with read_at := some now } else n)

/-- Embeds `NotificationAdmin.mark_as_read` (admin.py): on the selected
rows, `filter(read_at__isnull=True).update(read_at=now)`. -/
def adminMarkAsRead (db : List Notification) (sel : List Nat) (now : Int) :
    List Notification :=
  db.map (fun n =>
    if decide (n.id ∈ sel ∧ n.read_at = none) then { n with read_at := some now } else n)

/-- Embeds `NotificationAdmin.mark_as_unread` (admin.py): on the selected
rows, `update(read_at=None)`. -/
def adminMarkAsUnread (db : List Notification) (sel : List Nat) : List Notification :=
  db.map (fun n => if decide (n.id ∈ sel) then { n with read_at := none } else n)

/-- One exposed notification-state operation (views.py endpoints and the
notification admin actions). -/
inductive NExposedOp where
  | markReadView (pk user : Nat) (now : Int)
  | markUnreadView (pk user : Nat)
  | ackView (pk user : Nat) (now : Int)
  | markAllRead (user : Nat) (now : Int)
  | adminRead (sel : List Nat) (now : Int)
  | adminUnread (sel : List Nat)
deriving DecidableEq, Repr

/-- Effect of one exposed operation on the notification table (the `ack`
endpoint leaves the table unchanged on a 404). -/
def applyExposed (db : List Notification) : NExposedOp → List Notification
  | .markReadView pk user now => notificationMarkReadView db pk user now
  | .markUnreadView pk user => notificationMarkUnreadView db pk user
  | .ackView pk user now =>
      match notificationAck db pk user now with
      | none => db
      | some (db2, _) => db2
  | .markAllRead user now => notificationsMarkAllRead db user now
  | .adminRead sel now => adminMarkAsRead db sel now
  | .adminUnread sel => adminMarkAsUnread db sel

/-! ### Attending reassignment (`admin.py` `bulk_set_or_clear_attending`,
`audit.py` `_audit_patient_attending_post`, `signals.py`) -/

/-- Embeds the reassignment-relevant fields of `Patient`: primary key and
current attending (a user id; the placeholder is the id `tba`). -/
structure BPatient where
  pid : Nat
  attending : Nat
deriving DecidableEq, Repr

/-- Embeds an `ATTENDING_CHANGED` row of `AuditLog` (models.py), created by
`_audit_patient_attending_post` (audit.py). -/
structure AuditRow where
  patient : Nat
  changed_by : Option Nat
  old_attending : Option Nat
  new_attending : Option Nat
deriving DecidableEq, Repr

/-- Embeds a `PatientWatch` row (models.py); `archived_at` null means the
watch is active. -/
structure Watch where
  user : Nat
  patient : Nat
  note : String
  archived_at : Option Int
deriving DecidableEq, Repr

/-- One observable side effect of the reassignment pipeline, used to state
ordering properties. -/
inductive Ev where
  | updateAttending (pid : Nat)
  | auditWrite (pid : Nat)
  | notifyPush (pid : Nat)
  | watchEnsure (pid : Nat)
deriving DecidableEq, Repr

/-- Tests whether an event is a watch-ensure. -/
def Ev.isWatchEnsure : Ev → Bool
  | .watchEnsure _ => true
  | _ => false

/-- Tests whether an event is a notification push. -/
def Ev.isNotifyPush : Ev → Bool
  | .notifyPush _ => true
  | _ => false

/-- The persistent state the reassignment action touches. -/
structure AdminState where
  patients : List BPatient
  audits : List AuditRow
  notifs : List Notification
  watches : List Watch
deriving DecidableEq, Repr

/-- Embeds `_ensure_active_watch` (signals.py): no-op for a missing or
placeholder user or when an active watch exists; reactivate every archived
row of the pair if one exists; else create a new active watch with an empty
note.  (The handler that would call this on attending changes is never
registered: `apps.py` imports only `patients.audit`.) -/
def ensureActiveWatch (user : Option Nat) (tba : Nat) (patient : Nat)
    (watches : List Watch) : List Watch :=
  match user with
  | none => watches
  | some u =>
    if u = tba then watches
    else if watches.any (fun w => decide (w.user = u ∧ w.patient = patient ∧ w.archived_at = none)) then
      watches
    else if watches.any (fun w => decide (w.user = u ∧ w.patient = patient ∧ w.archived_at ≠ none)) then
      watches.map (fun w => if decide (w.user = u ∧ w.patient = patient) then { w with archived_at := none } else w)
    else watches ++ [⟨u, patient, "", none⟩]

/-- Processes the selected patients of `bulk_set_or_clear_attending`
(admin.py) in order.  Per patient whose attending differs from the target:
`p.save(update_fields=["attending"])` — during which the registered
`post_save` handler `_audit_patient_attending_post` (audit.py) appends one
`ATTENDING_CHANGED` audit row — then, when the target is not the
placeholder, `_notify_assignment`.  The CLEAR branch of the action is the
same loop with `target = tba` (the notify guard then never fires).  No
watch is touched: the handlers of `signals.py` are not registered.
Returns the new patient rows, notification table, audit table, the
changed-count and the side-effect trace. -/
def bulkAssignGo (startH endH : Nat) (now : Int) (tba target actor : Nat) :
    List BPatient → List Notification → List AuditRow →
    List BPatient × List Notification × List AuditRow × Nat × List Ev
  | [], notifs, audits => ([], notifs, audits, 0, [])
  | p :: ps, notifs, audits =>
    if p.attending = target then
      let r := bulkAssignGo startH endH now tba target actor ps notifs audits
      (p :: r.1, r.2.1, r.2.2.1, r.2.2.2.1, r.2.2.2.2)
    else
      let audits1 := audits ++ [⟨p.pid, some actor, some p.attending, some target⟩]
      let notifs1 := if target ≠ tba then notifyAssignment startH endH notifs now p.pid target else notifs
      let evs0 := [Ev.updateAttending p.pid, Ev.auditWrite p.pid]
        ++ (if target ≠ tba then [Ev.notifyPush p.pid] else [])
      let r := bulkAssignGo startH endH now tba target actor ps notifs1 audits1
      ({ p with attending := target } :: r.1, r.2.1, r.2.2.1, r.2.2.2.1 + 1, evs0 ++ r.2.2.2.2)

/-- Embeds the committed effect of one `bulk_set_or_clear_attending`
transaction on the whole state, with the reported changed-count and the
side-effect trace. -/
def bulkAssign (startH endH : Nat) (now : Int) (tba target actor : Nat)
    (s : AdminState) : AdminState × Nat × List Ev :=
  let r := bulkAssignGo startH endH now tba target actor s.patients s.notifs s.audits
  (⟨r.1, r.2.2.1, r.2.1, s.watches⟩, r.2.2.2.1, r.2.2.2.2)

/-- Embeds the all-or-nothing `transaction.atomic()` wrapper: an aborted
transaction leaves the state untouched and reports nothing; a committed one
applies every effect of the loop. -/
def bulkAssignAtomic (commit : Bool) (startH endH : Nat) (now : Int)
    (tba target actor : Nat) (s : AdminState) : AdminState × Nat × List Ev :=
  if commit then bulkAssign startH endH now tba target actor s else (s, 0, [])

/-- The side-effect trace the amended ordering claim predicts: per selected
patient, nothing when already assigned to the target, otherwise the
attending update, then the audit write, then (for a real target) the
notification push — and never a watch-ensure. -/
def bulkAssignTraceExpected (tba target : Nat) (patients : List BPatient) : List Ev :=
  (patients.map (fun p =>
    if p.attending = target then []
    else [Ev.updateAttending p.pid, Ev.auditWrite p.pid]
      ++ (if target ≠ tba then [Ev.notifyPush p.pid] else []))).flatten

/-! ## Theorems -/

/-! ### Lifecycle helper lemmas -/

theorem LInv_applyLOp {p : LPatient} (h : LInv p) (op : LOp) : LInv (applyLOp p op) := by
  obtain ⟨h1, h2, h3⟩ := h
  cases op with
  | markActive =>
      exact ⟨fun _ => ⟨rfl, rfl⟩, by simp [applyLOp, markActive], by simp [applyLOp, markActive]⟩
  | discharge w =>
      refine ⟨by simp [applyLOp, discharge], ?_, ?_⟩
      · intro _
        simp only [applyLOp, discharge]
        split
        · simp
        · simpa using ‹¬p.discharged_at = none›
      · intro hst
        simp only [applyLOp, discharge] at hst
        exact absurd hst (by simp)
  | archive w =>
      refine ⟨by simp [applyLOp, archive], ?_, ?_⟩
      · intro hst
        simp only [applyLOp, archive] at hst
        exact absurd hst (by simp)
      · intro _
        simp only [applyLOp, archive]
        split
        · simp
        · simpa using ‹¬p.archived_at = none›
  | dischargeNow n =>
      exact ⟨by simp [applyLOp, dischargeNow], by simp [applyLOp, dischargeNow],
             by simp [applyLOp, dischargeNow]⟩
  | archiveNow n =>
      exact ⟨by simp [applyLOp, archiveNow], by simp [applyLOp, archiveNow],
             by simp [applyLOp, archiveNow]⟩

theorem LInv_runLOps {p : LPatient} (h : LInv p) (ops : List LOp) : LInv (runLOps p ops) := by
  induction ops generalizing p with
  | nil => exact h
  | cons op ops ih => exact ih (LInv_applyLOp h op)

/-! ### Claim C2 -/

/-- C2, counterexample.  Archiving a freshly admitted (Active) patient is a
reachable lifecycle run that ends with status Archived and `discharged_at`
still null, so the claimed biconditional "`discharged_at` non-null iff
status is Discharged or Archived" is false on the code. -/
theorem C2_counterexample :
    (runLOps initPatient [LOp.archive 5]).status = PStatus.archived
    ∧ (runLOps initPatient [LOp.archive 5]).discharged_at = none := by
  constructor <;> rfl

/-- C2 (amended): along every lifecycle run from admission, an Active
patient has both timestamps null, a Discharged patient has a non-null
`discharged_at`, and an Archived patient has a non-null `archived_at`;
moreover the single-patient `discharge` / `archive` helpers stamp their
timestamp exactly once — they write it when it is null and keep the
existing value otherwise. -/
theorem C2_lifecycle_invariant :
    (∀ ops : List LOp, LInv (runLOps initPatient ops))
    ∧ (∀ (p : LPatient) (w : Int),
        (discharge p w).discharged_at = some (p.discharged_at.getD w))
    ∧ (∀ (p : LPatient) (w : Int),
        (archive p w).archived_at = some (p.archived_at.getD w)) := by
  refine ⟨fun ops => LInv_runLOps (by decide) ops, ?_, ?_⟩
  · intro p w
    simp only [discharge]
    cases p.discharged_at <;> simp [Option.getD]
  · intro p w
    simp only [archive]
    cases p.archived_at <;> simp [Option.getD]

/-! ### Claim C3 -/

/-- C3, counterexample.  The bulk `discharge_now` admin action overwrites
`discharged_at` unconditionally: applied at time 1 to a patient already
discharged at time 0, it moves the timestamp to 1, so the claim that the
bulk action writes the timestamp only when null is false on the code. -/
theorem C3_counterexample :
    (dischargeNow ⟨.discharged, some 0, none⟩ 1).discharged_at = some 1
    ∧ (dischargeNow ⟨.discharged, some 0, none⟩ 1).discharged_at ≠ some 0 := by
  constructor
  · rfl
  · decide

/-- C3 (amended): the single-patient `discharge` and `archive` are
idempotent on their timestamp — a second call leaves `discharged_at`
(resp. `archived_at`) exactly as the first call left it — while the bulk
`discharge_now` / `archive_now` admin actions set the timestamp to the
current time unconditionally on every run. -/
theorem C3_idempotence :
    (∀ (p : LPatient) (w w2 : Int),
      (discharge (discharge p w) w2).discharged_at = (discharge p w).discharged_at)
    ∧ (∀ (p : LPatient) (w w2 : Int),
      (archive (archive p w) w2).archived_at = (archive p w).archived_at)
    ∧ (∀ (p : LPatient) (n : Int), (dischargeNow p n).discharged_at = some n)
    ∧ (∀ (p : LPatient) (n : Int), (archiveNow p n).archived_at = some n) := by
  refine ⟨?_, ?_, fun p n => rfl, fun p n => rfl⟩
  · intro p w w2
    simp only [discharge]
    cases p.discharged_at <;> simp
  · intro p w w2
    simp only [archive]
    cases p.archived_at <;> simp

/-! ### Notification dedup helper lemmas -/

theorem notifyAssignment_eq (startH endH : Nat) (db : List Notification) (now : Int)
    (pid rid : Nat) :
    notifyAssignment startH endH db now pid rid
      = db.filter (fun n => ! isPendingAssign now pid n)
        ++ [assignPushed startH endH db now pid rid] := rfl

theorem length_filter_le_of_imp {α : Type} (l : List α) (p q : α → Bool)
    (h : ∀ a, p a = true → q a = true) :
    (l.filter p).length ≤ (l.filter q).length := by
  induction l with
  | nil => simp
  | cons a l ih =>
    by_cases hp : p a = true
    · simp [List.filter_cons, hp, h a hp]
      exact ih
    · have hp2 : p a = false := by simpa using hp
      by_cases hq : q a = true
      · simp [List.filter_cons, hp2, hq]
        exact Nat.le_succ_of_le ih
      · have hq2 : q a = false := by simpa using hq
        simpa [List.filter_cons, hp2, hq2] using ih

theorem pendingAssignCount_mono {db : List Notification} {now now2 : Int} {pid : Nat}
    (h : now ≤ now2) :
    pendingAssignCount db now2 pid ≤ pendingAssignCount db now pid := by
  apply length_filter_le_of_imp
  intro a ha
  simp only [isPendingAssign, decide_eq_true_eq] at ha ⊢
  exact ⟨ha.1, ha.2.1, lt_of_le_of_lt h ha.2.2⟩

theorem pendingAssignCount_notify_self (startH endH : Nat) (db : List Notification)
    (now : Int) (pid rid : Nat) :
    pendingAssignCount (notifyAssignment startH endH db now pid rid) now pid ≤ 1 := by
  unfold pendingAssignCount
  rw [notifyAssignment_eq, List.filter_append]
  have h1 : (db.filter (fun n => ! isPendingAssign now pid n)).filter
      (isPendingAssign now pid) = [] := by
    rw [List.filter_filter]
    apply List.filter_eq_nil_iff.mpr
    intro a _
    cases hp : isPendingAssign now pid a <;> simp [hp]
  rw [h1]
  cases hp : isPendingAssign now pid (assignPushed startH endH db now pid rid) <;>
    simp [hp]

theorem pendingAssignCount_notify_other (startH endH : Nat) (db : List Notification)
    (now t : Int) (pid rid q : Nat) (hq : q ≠ pid) :
    pendingAssignCount (notifyAssignment startH endH db now pid rid) t q
      = pendingAssignCount db t q := by
  unfold pendingAssignCount
  rw [notifyAssignment_eq, List.filter_append]
  have h2 : isPendingAssign t q (assignPushed startH endH db now pid rid) = false := by
    simp only [isPendingAssign, assignPushed, decide_eq_false_iff_not]
    rintro ⟨-, hpq, -⟩
    exact hq (by simpa using hpq.symm)
  have h1 : (db.filter (fun n => ! isPendingAssign now pid n)).filter
      (isPendingAssign t q) = db.filter (isPendingAssign t q) := by
    rw [List.filter_filter]
    apply List.filter_congr
    intro a _
    cases hqa : isPendingAssign t q a
    · simp
    · have hpa : isPendingAssign now pid a = false := by
        simp only [isPendingAssign, decide_eq_true_eq] at hqa
        simp only [isPendingAssign, decide_eq_false_iff_not]
        rintro ⟨-, hpq, -⟩
        exact hq (by rw [hqa.2.1] at hpq; simpa using hpq)
      simp [hpa]
  rw [h1]
  simp [h2]

theorem pendingInv_runNSteps (startH endH : Nat) (s : NState)
    (h : ∀ pid, pendingAssignCount s.db s.now pid ≤ 1) (steps : List NStep) :
    ∀ pid, pendingAssignCount (runNSteps startH endH s steps).db
      (runNSteps startH endH s steps).now pid ≤ 1 := by
  induction steps generalizing s with
  | nil => exact h
  | cons st sts ih =>
    apply ih
    intro pid
    cases st with
    | advance d =>
      simp only [applyNStep]
      exact le_trans (pendingAssignCount_mono (by omega)) (h pid)
    | notify pid2 rid =>
      simp only [applyNStep]
      by_cases hpq : pid = pid2
      · subst hpq
        exact pendingAssignCount_notify_self startH endH s.db s.now pid rid
      · rw [pendingAssignCount_notify_other startH endH s.db s.now s.now pid2 rid pid hpq]
        exact h pid

/-! ### Claim C1 -/

/-- C1: (i) along every run of the notification subsystem (time advances
interleaved with `_notify_assignment` calls, starting from an empty table),
every patient has at most one pending — future-visible — ASSIGNMENT
notification at every moment; (ii) after two reassignments of the same
patient within one quiet-hours window (the second before the window ends,
i.e. before the visibility computed for the first), exactly one ASSIGNMENT
notification exists for that patient, addressed to the second attending. -/
theorem C1_assignment_dedup :
    (∀ (startH endH : Nat) (t0 : Int) (steps : List NStep) (pid : Nat),
      pendingAssignCount (runNSteps startH endH ⟨[], t0⟩ steps).db
        (runNSteps startH endH ⟨[], t0⟩ steps).now pid ≤ 1)
    ∧ (∀ (startH endH : Nat) (db : List Notification) (t1 t2 : Int) (pid r1 r2 : Nat),
      db.filter (isAssignFor pid) = [] →
      isQuietHours startH endH t1 = true →
      isQuietHours startH endH t2 = true →
      t1 ≤ t2 →
      t2 < nextVisibleTime startH endH t1 →
      ((notifyAssignment startH endH (notifyAssignment startH endH db t1 pid r1) t2 pid r2).filter
          (isAssignFor pid)).map (fun n => n.recipient) = [r2]) := by
  constructor
  · intro startH endH t0 steps pid
    exact pendingInv_runNSteps startH endH ⟨[], t0⟩
      (fun _ => by simp [pendingAssignCount]) steps pid
  · intro startH endH db t1 t2 pid r1 r2 hdb hq1 hq2 h12 hlt
    have hPush1 : isAssignFor pid (assignPushed startH endH db t1 pid r1) = true := by
      simp [isAssignFor, assignPushed]
    have h1 : (notifyAssignment startH endH db t1 pid r1).filter (isAssignFor pid)
        = [assignPushed startH endH db t1 pid r1] := by
      rw [notifyAssignment_eq, List.filter_append]
      have hA : (db.filter (fun n => ! isPendingAssign t1 pid n)).filter (isAssignFor pid)
          = [] := by
        rw [List.filter_filter]
        apply List.filter_eq_nil_iff.mpr
        intro a ha hcontra
        have hfa : isAssignFor pid a = true := by
          cases hfa2 : isAssignFor pid a
          · rw [hfa2] at hcontra; simp at hcontra
          · rfl
        have : a ∈ db.filter (isAssignFor pid) := List.mem_filter.mpr ⟨ha, hfa⟩
        rw [hdb] at this
        simp at this
      rw [hA]
      simp [hPush1]
    have hPend1 : isPendingAssign t2 pid (assignPushed startH endH db t1 pid r1) = true := by
      simp [isPendingAssign, assignPushed, hlt]
    have h2 : (notifyAssignment startH endH (notifyAssignment startH endH db t1 pid r1) t2 pid r2).filter
        (isAssignFor pid)
        = [assignPushed startH endH (notifyAssignment startH endH db t1 pid r1) t2 pid r2] := by
      rw [notifyAssignment_eq _ _ (notifyAssignment startH endH db t1 pid r1), List.filter_append]
      have hB : ((notifyAssignment startH endH db t1 pid r1).filter
          (fun n => ! isPendingAssign t2 pid n)).filter (isAssignFor pid) = [] := by
        rw [List.filter_filter]
        apply List.filter_eq_nil_iff.mpr
        intro a ha hcontra
        have hfa : isAssignFor pid a = true := by
          cases hfa2 : isAssignFor pid a
          · rw [hfa2] at hcontra; simp at hcontra
          · rfl
        have hnp : (! isPendingAssign t2 pid a) = true := by
          cases hnp2 : isPendingAssign t2 pid a
          · rfl
          · rw [hfa, hnp2] at hcontra; simp at hcontra
        have hmem : a ∈ (notifyAssignment startH endH db t1 pid r1).filter (isAssignFor pid) :=
          List.mem_filter.mpr ⟨ha, hfa⟩
        rw [h1] at hmem
        have ha1 : a = assignPushed startH endH db t1 pid r1 := by simpa using hmem
        rw [ha1, hPend1] at hnp
        simp at hnp
      rw [hB]
      have hPush2 : isAssignFor pid
          (assignPushed startH endH (notifyAssignment startH endH db t1 pid r1) t2 pid r2) = true := by
        simp [isAssignFor, assignPushed]
      simp [hPush2]
    rw [h2]
    simp [assignPushed]

/-- C1, witness: default window 16→7; starting from an empty table, the
patient is reassigned at 20:00 and again at 21:40 of day 0 (both inside
quiet hours, before the 07:00 boundary of day 1); exactly one ASSIGNMENT
notification remains, addressed to the second attending. -/
theorem C1_witness :
    (([] : List Notification).filter (isAssignFor 1) = []
      ∧ isQuietHours 16 7 1200 = true
      ∧ isQuietHours 16 7 1300 = true
      ∧ (1200 : Int) ≤ 1300
      ∧ (1300 : Int) < nextVisibleTime 16 7 1200)
    ∧ ((notifyAssignment 16 7 (notifyAssignment 16 7 [] 1200 1 2) 1300 1 3).filter
        (isAssignFor 1)).map (fun n => n.recipient) = [3] := by
  refine ⟨⟨rfl, by decide, by decide, by decide, by decide⟩, ?_⟩
  exact C1_assignment_dedup.2 16 7 [] 1200 1300 1 2 3 rfl (by decide) (by decide)
    (by decide) (by decide)

/-! ### Reassignment pipeline helper lemmas -/

theorem mem_notifyAssignment {n : Notification} (startH endH : Nat)
    (db : List Notification) (now : Int) (pid rid : Nat)
    (h : n ∈ notifyAssignment startH endH db now pid rid) :
    n ∈ db ∨ n.patient = some pid := by
  rw [notifyAssignment_eq] at h
  rcases List.mem_append.mp h with h | h
  · exact Or.inl (List.mem_of_mem_filter h)
  · right
    have : n = assignPushed startH endH db now pid rid := by simpa using h
    rw [this]
    rfl

theorem bulkGo_patients (startH endH : Nat) (now : Int) (tba target actor : Nat) :
    ∀ (ps : List BPatient) (notifs : List Notification) (audits : List AuditRow),
    (bulkAssignGo startH endH now tba target actor ps notifs audits).1
      = ps.map (fun p => if p.attending = target then p else { p with attending := target }) := by
  intro ps
  induction ps with
  | nil => intro notifs audits; rfl
  | cons p ps ih =>
    intro notifs audits
    by_cases h : p.attending = target
    · simp only [bulkAssignGo, if_pos h, List.map_cons]
      rw [ih]
    · simp only [bulkAssignGo, if_neg h, List.map_cons]
      rw [ih]

theorem bulkGo_count (startH endH : Nat) (now : Int) (tba target actor : Nat) :
    ∀ (ps : List BPatient) (notifs : List Notification) (audits : List AuditRow),
    (bulkAssignGo startH endH now tba target actor ps notifs audits).2.2.2.1
      = (ps.filter (fun p => ! decide (p.attending = target))).length := by
  intro ps
  induction ps with
  | nil => intro notifs audits; rfl
  | cons p ps ih =>
    intro notifs audits
    by_cases h : p.attending = target
    · simp only [bulkAssignGo, if_pos h, List.filter_cons]
      simp [h, ih]
    · simp only [bulkAssignGo, if_neg h, List.filter_cons]
      simp [h, ih]

theorem bulkGo_audits (startH endH : Nat) (now : Int) (tba target actor : Nat) :
    ∀ (ps : List BPatient) (notifs : List Notification) (audits : List AuditRow),
    (bulkAssignGo startH endH now tba target actor ps notifs audits).2.2.1
      = audits ++ (ps.filter (fun p => ! decide (p.attending = target))).map
          (fun p => (⟨p.pid, some actor, some p.attending, some target⟩ : AuditRow)) := by
  intro ps
  induction ps with
  | nil => intro notifs audits; simp [bulkAssignGo]
  | cons p ps ih =>
    intro notifs audits
    by_cases h : p.attending = target
    · simp only [bulkAssignGo, if_pos h, List.filter_cons]
      simp [h, ih]
    · simp only [bulkAssignGo, if_neg h, List.filter_cons]
      simp [h, ih]

theorem bulkGo_evs (startH endH : Nat) (now : Int) (tba target actor : Nat) :
    ∀ (ps : List BPatient) (notifs : List Notification) (audits : List AuditRow),
    (bulkAssignGo startH endH now tba target actor ps notifs audits).2.2.2.2
      = bulkAssignTraceExpected tba target ps := by
  intro ps
  induction ps with
  | nil => intro notifs audits; rfl
  | cons p ps ih =>
    intro notifs audits
    by_cases h : p.attending = target
    · simp only [bulkAssignGo, if_pos h]
      rw [ih]
      simp [bulkAssignTraceExpected, h]
    · simp only [bulkAssignGo, if_neg h]
      by_cases htb : target ≠ tba
      · simp only [if_pos htb]
        rw [ih]
        simp [bulkAssignTraceExpected, h, htb]
      · simp only [if_neg htb]
        rw [ih]
        simp [bulkAssignTraceExpected, h, htb]

theorem bulkGo_notifs_mem (startH endH : Nat) (now : Int) (tba target actor : Nat) :
    ∀ (ps : List BPatient) (notifs : List Notification) (audits : List AuditRow)
      (n : Notification),
    n ∈ (bulkAssignGo startH endH now tba target actor ps notifs audits).2.1 →
    n ∈ notifs ∨ ∃ p, p ∈ ps ∧ ¬ p.attending = target ∧ n.patient = some p.pid := by
  intro ps
  induction ps with
  | nil => intro notifs audits n h; exact Or.inl h
  | cons p ps ih =>
    intro notifs audits n h
    by_cases hp : p.attending = target
    · simp only [bulkAssignGo, if_pos hp] at h
      rcases ih _ _ n h with h2 | ⟨q, hq, hqt, hqp⟩
      · exact Or.inl h2
      · exact Or.inr ⟨q, List.mem_cons_of_mem p hq, hqt, hqp⟩
    · simp only [bulkAssignGo, if_neg hp] at h
      by_cases htb : target ≠ tba
      · rw [if_pos htb] at h
        rcases ih _ _ n h with h2 | ⟨q, hq, hqt, hqp⟩
        · rcases mem_notifyAssignment startH endH notifs now p.pid target h2 with h3 | h3
          · exact Or.inl h3
          · exact Or.inr ⟨p, List.mem_cons_self p ps, hp, h3⟩
        · exact Or.inr ⟨q, List.mem_cons_of_mem p hq, hqt, hqp⟩
      · rw [if_neg htb] at h
        rcases ih _ _ n h with h2 | ⟨q, hq, hqt, hqp⟩
        · exact Or.inl h2
        · exact Or.inr ⟨q, List.mem_cons_of_mem p hq, hqt, hqp⟩

theorem traceExpected_no_watch (tba target : Nat) (ps : List BPatient) :
    (bulkAssignTraceExpected tba target ps).any Ev.isWatchEnsure = false := by
  rw [List.any_eq_false]
  intro e he
  rcases List.mem_flatten.mp he with ⟨blk, hblk, heblk⟩
  rcases List.mem_map.mp hblk with ⟨p, -, rfl⟩
  by_cases h : p.attending = target
  · rw [if_pos h] at heblk
    simp at heblk
  · rw [if_neg h] at heblk
    by_cases htb : target ≠ tba
    · rw [if_pos htb] at heblk
      simp at heblk
      rcases heblk with rfl | rfl | rfl <;> simp [Ev.isWatchEnsure]
    · rw [if_neg htb] at heblk
      simp at heblk
      rcases heblk with rfl | rfl <;> simp [Ev.isWatchEnsure]

/-! ### Claim C4 -/

/-- C4, counterexample.  A concrete reassignment (one patient, attending 2,
reassigned to real user 7 by actor 9) produces the side-effect trace
update–audit–notify and contains no watch-ensure at all, so the claimed
ordering "audit-write before notification-push before watch-ensure, all
three committing together" is false on the code: the third effect never
happens (the `signals.py` handlers are not registered by `apps.py`). -/
theorem C4_counterexample :
    (bulkAssign 16 7 1200 0 7 9 ⟨[⟨1, 2⟩], [], [], []⟩).2.2
        = [Ev.updateAttending 1, Ev.auditWrite 1, Ev.notifyPush 1]
    ∧ (bulkAssign 16 7 1200 0 7 9 ⟨[⟨1, 2⟩], [], [], []⟩).2.2.filter Ev.isWatchEnsure
        = [] := by
  exact ⟨rfl, rfl⟩

/-- C4 (amended): within one reassignment transaction, each patient whose
attending actually changes contributes the attending-field update, then the
audit write, then — when the target is a real user — the notification push,
in that order; the trace never contains a watch-ensure; and the
`transaction.atomic` wrapper commits all the effects together or none of
them. -/
theorem C4_ordering :
    ∀ (startH endH : Nat) (now : Int) (tba target actor : Nat) (s : AdminState),
      (bulkAssign startH endH now tba target actor s).2.2
          = bulkAssignTraceExpected tba target s.patients
      ∧ (bulkAssign startH endH now tba target actor s).2.2.any Ev.isWatchEnsure = false
      ∧ bulkAssignAtomic false startH endH now tba target actor s = (s, 0, [])
      ∧ bulkAssignAtomic true startH endH now tba target actor s
          = bulkAssign startH endH now tba target actor s := by
  intro startH endH now tba target actor s
  have hevs : (bulkAssign startH endH now tba target actor s).2.2
      = bulkAssignTraceExpected tba target s.patients :=
    bulkGo_evs startH endH now tba target actor s.patients s.notifs s.audits
  refine ⟨hevs, ?_, rfl, rfl⟩
  rw [hevs]
  exact traceExpected_no_watch tba target s.patients

/-! ### Claim C5 -/

/-- C5: evaluation of the code at the failing input, and in general.
Reassigning patient 1 from the placeholder (id 0) to the real user 7 does
change the attending, yet leaves the watch table empty — in fact no run of
the reassignment action ever touches the watch table, because `apps.py`
registers only the `audit.py` handlers and the `signals.py` module defining
`_ensure_active_watch` is never imported.  Had the helper been called, it
would have created the active watch (last conjunct). -/
theorem C5_watch_not_created :
    (bulkAssign 16 7 1200 0 7 9 ⟨[⟨1, 0⟩], [], [], []⟩).1.patients = [⟨1, 7⟩]
    ∧ (bulkAssign 16 7 1200 0 7 9 ⟨[⟨1, 0⟩], [], [], []⟩).1.watches = []
    ∧ (∀ (startH endH : Nat) (now : Int) (tba target actor : Nat) (s : AdminState),
        (bulkAssign startH endH now tba target actor s).1.watches = s.watches)
    ∧ ensureActiveWatch (some 7) 0 1 [] = [⟨7, 1, "", none⟩] := by
  exact ⟨rfl, rfl, fun _ _ _ _ _ _ _ => rfl, rfl⟩

/-! ### Claim C6 -/

/-- C6: a patient already assigned to the requested attending is left
untouched by the bulk reassignment — its row survives unchanged, every
audit row and every notification in the final state concerning its id was
already there before, and the reported changed-count is exactly the number
of selected patients whose attending differed (so it excludes this one).
The third hypothesis says the patient id denotes this row (ids are unique
primary keys in the database). -/
theorem C6_idempotent_per_patient :
    ∀ (startH endH : Nat) (now : Int) (tba target actor : Nat) (s : AdminState)
      (p : BPatient),
      p ∈ s.patients → p.attending = target →
      (∀ q ∈ s.patients, q.pid = p.pid → q.attending = target) →
      (bulkAssign startH endH now tba target actor s).2.1
          = (s.patients.filter (fun q => ! decide (q.attending = target))).length
      ∧ p ∈ (bulkAssign startH endH now tba target actor s).1.patients
      ∧ (∀ a ∈ (bulkAssign startH endH now tba target actor s).1.audits,
          a ∈ s.audits ∨ a.patient ≠ p.pid)
      ∧ (∀ n ∈ (bulkAssign startH endH now tba target actor s).1.notifs,
          n ∈ s.notifs ∨ n.patient ≠ some p.pid) := by
  intro startH endH now tba target actor s p hp hpt huniq
  refine ⟨?_, ?_, ?_, ?_⟩
  · exact bulkGo_count startH endH now tba target actor s.patients s.notifs s.audits
  · show p ∈ (bulkAssignGo startH endH now tba target actor s.patients s.notifs s.audits).1
    rw [bulkGo_patients]
    exact List.mem_map.mpr ⟨p, hp, by rw [if_pos hpt]⟩
  · intro a ha
    have ha2 : a ∈ (bulkAssignGo startH endH now tba target actor s.patients s.notifs s.audits).2.2.1 := ha
    rw [bulkGo_audits] at ha2
    rcases List.mem_append.mp ha2 with h | h
    · exact Or.inl h
    · right
      rcases List.mem_map.mp h with ⟨q, hq, hqa⟩
      have hqf := List.mem_filter.mp hq
      have hqt : ¬ q.attending = target := by simpa using hqf.2
      have hap : a.patient = q.pid := by rw [← hqa]
      rw [hap]
      intro hcontra
      exact hqt (huniq q hqf.1 hcontra)
  · intro n hn
    have hn2 : n ∈ (bulkAssignGo startH endH now tba target actor s.patients s.notifs s.audits).2.1 := hn
    rcases bulkGo_notifs_mem startH endH now tba target actor s.patients s.notifs s.audits n hn2
      with h | ⟨q, hq, hqt, hqp⟩
    · exact Or.inl h
    · right
      rw [hqp]
      intro hcontra
      have : q.pid = p.pid := by simpa using hcontra
      exact hqt (huniq q hq this)

/-- C6, witness: two selected patients, one already assigned to user 7 and
one assigned to user 3; the count reports 1, the already-assigned row
survives, and no audit row or notification of the final state concerns it
(the initial tables being empty). -/
theorem C6_witness :
    ((⟨1, 7⟩ : BPatient) ∈ ([⟨1, 7⟩, ⟨2, 3⟩] : List BPatient)
      ∧ (⟨1, 7⟩ : BPatient).attending = 7
      ∧ (∀ q ∈ ([⟨1, 7⟩, ⟨2, 3⟩] : List BPatient), q.pid = 1 → q.attending = 7))
    ∧ ((bulkAssign 16 7 1200 0 7 9 ⟨[⟨1, 7⟩, ⟨2, 3⟩], [], [], []⟩).2.1
        = (([⟨1, 7⟩, ⟨2, 3⟩] : List BPatient).filter
            (fun q => ! decide (q.attending = 7))).length
      ∧ (⟨1, 7⟩ : BPatient)
          ∈ (bulkAssign 16 7 1200 0 7 9 ⟨[⟨1, 7⟩, ⟨2, 3⟩], [], [], []⟩).1.patients
      ∧ (∀ a ∈ (bulkAssign 16 7 1200 0 7 9 ⟨[⟨1, 7⟩, ⟨2, 3⟩], [], [], []⟩).1.audits,
          a ∈ ([] : List AuditRow) ∨ a.patient ≠ 1)
      ∧ (∀ n ∈ (bulkAssign 16 7 1200 0 7 9 ⟨[⟨1, 7⟩, ⟨2, 3⟩], [], [], []⟩).1.notifs,
          n ∈ ([] : List Notification) ∨ n.patient ≠ some 1)) := by
  refine ⟨⟨by decide, rfl, by decide⟩, ?_⟩
  exact C6_idempotent_per_patient 16 7 1200 0 7 9 ⟨[⟨1, 7⟩, ⟨2, 3⟩], [], [], []⟩ ⟨1, 7⟩
    (by decide) rfl (by decide)

/-! ### Acknowledge / read-state helper lemmas -/

theorem forall₂_ackPreserve_map (db : List Notification) (f : Notification → Notification)
    (hf : ∀ a, a.acknowledged_at ≠ none → (f a).acknowledged_at ≠ none) :
    List.Forall₂ (fun a b => a.acknowledged_at ≠ none → b.acknowledged_at ≠ none)
      db (db.map f) := by
  induction db with
  | nil => exact List.Forall₂.nil
  | cons a l ih => exact List.Forall₂.cons (hf a) ih

theorem forall₂_ackPreserve_refl (db : List Notification) :
    List.Forall₂ (fun a b => a.acknowledged_at ≠ none → b.acknowledged_at ≠ none) db db :=
  List.forall₂_same.mpr (fun _ _ h => h)

theorem findNotif_saveUpdate (db : List Notification) (pk user : Nat)
    (obj : Notification) (fields : List NField)
    (hid : ∀ r, (fields.foldl (fun acc f => writeField f obj acc) r).id = r.id)
    (hrec : ∀ r, (fields.foldl (fun acc f => writeField f obj acc) r).recipient = r.recipient) :
    findNotif (saveUpdate db obj fields) pk user
      = (findNotif db pk user).map
          (fun r => if r.id = obj.id then fields.foldl (fun acc f => writeField f obj acc) r else r) := by
  unfold findNotif saveUpdate
  rw [List.find?_map]
  have hpred : ((fun m => decide (m.id = pk ∧ m.recipient = user)) ∘
      (fun r => if r.id = obj.id then fields.foldl (fun acc f => writeField f obj acc) r else r))
      = fun m => decide (m.id = pk ∧ m.recipient = user) := by
    funext r
    by_cases h : r.id = obj.id <;> simp [Function.comp, h, hid, hrec]
  rw [hpred]

/-! ### Claim C9 -/

/-- C9: acknowledging is one-way and idempotent.  (i) The first call by the
recipient stamps `acknowledged_at` (and `acknowledged_by`) on exactly that
row and answers with the stamp time; (ii) any repeated call leaves the
table exactly as the first call left it and still succeeds, reporting the
original stamp; (iii) no exposed notification operation (mark-read,
mark-unread, acknowledge, mark-all-read, and the admin read/unread actions)
ever takes a non-null `acknowledged_at` back to null. -/
theorem C9_acknowledge :
    (∀ (db : List Notification) (pk user : Nat) (now : Int) (n : Notification),
      findNotif db pk user = some n → n.acknowledged_at = none →
      notificationAck db pk user now
        = some (db.map (fun r => if r.id = n.id
            then { r with acknowledged_at := some now, acknowledged_by := some user }
            else r), now))
    ∧ (∀ (db db2 : List Notification) (pk user : Nat) (now now2 t : Int),
      notificationAck db pk user now = some (db2, t) →
      notificationAck db2 pk user now2 = some (db2, t))
    ∧ (∀ (op : NExposedOp) (db : List Notification),
      List.Forall₂ (fun a b => a.acknowledged_at ≠ none → b.acknowledged_at ≠ none)
        db (applyExposed db op)) := by
  refine ⟨?_, ?_, ?_⟩
  · intro db pk user now n hfind hack
    simp only [notificationAck, hfind, hack]
    rfl
  · intro db db2 pk user now now2 t h
    cases hfind : findNotif db pk user with
    | none =>
      simp [notificationAck, hfind] at h
    | some n =>
      cases hack : n.acknowledged_at with
      | some t0 =>
        simp only [notificationAck, hfind, hack, Option.some.injEq, Prod.mk.injEq] at h
        obtain ⟨rfl, rfl⟩ := h
        simp only [notificationAck, hfind, hack]
      | none =>
        simp only [notificationAck, hfind, hack, Option.some.injEq, Prod.mk.injEq] at h
        obtain ⟨hdb2, rfl⟩ := h
        have hfind2 : findNotif db2 pk user
            = some { n with acknowledged_at := some now, acknowledged_by := some user } := by
          rw [← hdb2]
          rw [findNotif_saveUpdate db pk user
            { n with acknowledged_at := some now, acknowledged_by := some user }
            [NField.acknowledged_at, NField.acknowledged_by]
            (fun r => rfl) (fun r => rfl)]
          rw [hfind]
          simp [writeField]
        simp only [notificationAck, hfind2]
  · intro op db
    cases op with
    | markReadView pk user now =>
      cases hfind : findNotif db pk user with
      | none =>
        simp only [applyExposed, notificationMarkReadView, hfind]
        exact forall₂_ackPreserve_refl db
      | some n =>
        simp only [applyExposed, notificationMarkReadView, hfind]
        by_cases hr : n.read_at = none
        · rw [if_pos hr]
          exact forall₂_ackPreserve_map db _ (fun a ha => by
            by_cases h : a.id = ({ n with read_at := some now } : Notification).id <;>
              simp [markRead, saveUpdate, writeField, h, ha])
        · rw [if_neg hr]
          exact forall₂_ackPreserve_refl db
    | markUnreadView pk user =>
      cases hfind : findNotif db pk user with
      | none =>
        simp only [applyExposed, notificationMarkUnreadView, hfind]
        exact forall₂_ackPreserve_refl db
      | some n =>
        simp only [applyExposed, notificationMarkUnreadView, hfind]
        by_cases hr : n.read_at = none
        · rw [if_pos hr]
          exact forall₂_ackPreserve_refl db
        · rw [if_neg hr]
          exact forall₂_ackPreserve_map db _ (fun a ha => by
            by_cases h : a.id = ({ n with read_at := none } : Notification).id <;>
              simp [markUnread, saveUpdate, writeField, h, ha])
    | ackView pk user now =>
      cases hfind : findNotif db pk user with
      | none =>
        simp only [applyExposed, notificationAck, hfind]
        exact forall₂_ackPreserve_refl db
      | some n =>
        cases hack : n.acknowledged_at with
        | some t0 =>
          simp only [applyExposed, notificationAck, hfind, hack]
          exact forall₂_ackPreserve_refl db
        | none =>
          simp only [applyExposed, notificationAck, hfind, hack]
          exact forall₂_ackPreserve_map db _ (fun a ha => by
            by_cases h : a.id = ({ n with acknowledged_at := some now, acknowledged_by := some user } : Notification).id <;>
              simp [saveUpdate, writeField, h, ha])
    | markAllRead user now =>
      simp only [applyExposed, notificationsMarkAllRead]
      exact forall₂_ackPreserve_map db _ (fun a ha => by
        by_cases h : a.recipient = user ∧ a.visible_at ≤ now ∧ a.read_at = none <;>
          simp [h, ha])
    | adminRead sel now =>
      simp only [applyExposed, adminMarkAsRead]
      exact forall₂_ackPreserve_map db _ (fun a ha => by
        by_cases h : a.id ∈ sel ∧ a.read_at = none <;> simp [h, ha])
    | adminUnread sel =>
      simp only [applyExposed, adminMarkAsUnread]
      exact forall₂_ackPreserve_map db _ (fun a ha => by
        by_cases h : a.id ∈ sel <;> simp [h, ha])

/-- C9, witness: one generic notification for user 2; the first
acknowledgement at time 5 stamps it, a repeated acknowledgement at time 9
answers with the same table and the original stamp time 5. -/
theorem C9_witness :
    (findNotif [⟨1, 2, "m", .info, .generic, none, 0, 0, none, none, none⟩] 1 2
        = some ⟨1, 2, "m", .info, .generic, none, 0, 0, none, none, none⟩
      ∧ (⟨1, 2, "m", .info, .generic, none, 0, 0, none, none, none⟩ :
          Notification).acknowledged_at = none)
    ∧ notificationAck [⟨1, 2, "m", .info, .generic, none, 0, 0, none, none, none⟩] 1 2 5
        = some ([⟨1, 2, "m", .info, .generic, none, 0, 0, none, some 5, some 2⟩], 5)
    ∧ notificationAck [⟨1, 2, "m", .info, .generic, none, 0, 0, none, some 5, some 2⟩] 1 2 9
        = some ([⟨1, 2, "m", .info, .generic, none, 0, 0, none, some 5, some 2⟩], 5) := by
  have h1 := C9_acknowledge.1 [⟨1, 2, "m", .info, .generic, none, 0, 0, none, none, none⟩]
    1 2 5 ⟨1, 2, "m", .info, .generic, none, 0, 0, none, none, none⟩ rfl rfl
  exact ⟨⟨rfl, rfl⟩, h1, C9_acknowledge.2.1 _ _ 1 2 5 9 5 h1⟩

/-! ### Claim C10 -/

/-- C10: `mark_read` and `mark_unread` persist only the `read_at` field of
the addressed notification (the save is restricted to
`update_fields=["read_at"]`): the stored table changes exactly by setting
`read_at` on the rows carrying the primary key of the object — every other field of
those rows keeps its stored value — and every other row is left unchanged
and still present. -/
theorem C10_read_frame :
    ∀ (db : List Notification) (o : Notification) (when : Int),
      markRead db o when
          = db.map (fun r => if r.id = o.id then { r with read_at := some when } else r)
      ∧ markUnread db o
          = db.map (fun r => if r.id = o.id then { r with read_at := none } else r)
      ∧ (∀ r ∈ db, r.id ≠ o.id → r ∈ markRead db o when ∧ r ∈ markUnread db o) := by
  intro db o when
  have h1 : markRead db o when
      = db.map (fun r => if r.id = o.id then { r with read_at := some when } else r) := rfl
  have h2 : markUnread db o
      = db.map (fun r => if r.id = o.id then { r with read_at := none } else r) := rfl
  refine ⟨h1, h2, ?_⟩
  intro r hr hne
  constructor
  · rw [h1]
    exact List.mem_map.mpr ⟨r, hr, by rw [if_neg hne]⟩
  · rw [h2]
    exact List.mem_map.mpr ⟨r, hr, by rw [if_neg hne]⟩

/-- C10, witness: a two-row table; marking row 1 read at time 4 only flips
its `read_at`, leaving every other field and the whole row 2 unchanged. -/
theorem C10_witness :
    markRead [⟨1, 2, "m", .info, .generic, none, 0, 0, none, none, none⟩,
        ⟨2, 3, "w", .warning, .assignment, some 9, 1, 2, none, some 7, some 3⟩]
        ⟨1, 2, "m", .info, .generic, none, 0, 0, none, none, none⟩ 4
      = [⟨1, 2, "m", .info, .generic, none, 0, 0, some 4, none, none⟩,
        ⟨2, 3, "w", .warning, .assignment, some 9, 1, 2, none, some 7, some 3⟩]
    ∧ (⟨2, 3, "w", .warning, .assignment, some 9, 1, 2, none, some 7, some 3⟩ :
        Notification)
      ∈ markRead [⟨1, 2, "m", .info, .generic, none, 0, 0, none, none, none⟩,
          ⟨2, 3, "w", .warning, .assignment, some 9, 1, 2, none, some 7, some 3⟩]
          ⟨1, 2, "m", .info, .generic, none, 0, 0, none, none, none⟩ 4 := by
  refine ⟨rfl, ?_⟩
  exact ((C10_read_frame _ _ 4).2.2 _ (by decide) (by decide)).1

/-! ### Quiet-hours helper lemmas -/

theorem isQuietHours_iff_spec (startH endH : Nat) (now : Int) :
    isQuietHours startH endH now = true ↔ quietSpecMembership startH endH now := by
  unfold isQuietHours quietSpecMembership
  rcases Nat.lt_trichotomy startH endH with h | h | h
  · simp [Nat.ne_of_lt h, h, Nat.lt_asymm h]
  · subst h
    simp
  · simp [ne_of_gt h, Nat.lt_asymm h, h]

theorem nextVisibleTime_of_not_quiet {startH endH : Nat} {now : Int}
    (h : isQuietHours startH endH now = false) :
    nextVisibleTime startH endH now = now := by
  simp [nextVisibleTime, h]

theorem nextVisibleTime_of_quiet {startH endH : Nat} {now : Int}
    (h : isQuietHours startH endH now = true) :
    nextVisibleTime startH endH now
      = (if localHour now < (endH : Int) then localDay now else localDay now + 1) * 1440
        + (endH : Int) * 60 := by
  simp [nextVisibleTime, h]

theorem now_lt_nextVisibleTime {startH endH : Nat} {now : Int} (he : endH < 24)
    (h : isQuietHours startH endH now = true) :
    now < nextVisibleTime startH endH now := by
  rw [nextVisibleTime_of_quiet h]
  have he2 : (endH : Int) < 24 := by exact_mod_cast he
  have he0 : (0 : Int) ≤ (endH : Int) := Int.ofNat_nonneg endH
  unfold localHour localDay
  split
  · omega
  · omega

/-! ### Claim C7 -/

/-- C7: quiet-hours membership is exactly as specified (disabled when
`start = end`, same-day `[start, end)` when `start < end`, midnight-wrapping
when `start > end`); outside the window `next_visible_time` returns `now`
unchanged, and inside it returns the next occurrence of the end-hour
boundary — today when the local hour is below the end hour, else tomorrow —
at minute 0 local time (hence strictly in the future). -/
theorem C7_quiet_hours :
    (∀ (startH endH : Nat) (now : Int),
      isQuietHours startH endH now = true ↔ quietSpecMembership startH endH now)
    ∧ (∀ (startH endH : Nat) (now : Int),
      isQuietHours startH endH now = false → nextVisibleTime startH endH now = now)
    ∧ (∀ (startH endH : Nat) (now : Int), endH < 24 →
      isQuietHours startH endH now = true →
      localDay (nextVisibleTime startH endH now)
          = (if localHour now < (endH : Int) then localDay now else localDay now + 1)
      ∧ localHour (nextVisibleTime startH endH now) = (endH : Int)
      ∧ localMinute (nextVisibleTime startH endH now) = 0
      ∧ now < nextVisibleTime startH endH now) := by
  refine ⟨isQuietHours_iff_spec, fun _ _ _ h => nextVisibleTime_of_not_quiet h, ?_⟩
  intro startH endH now he hq
  have he2 : (endH : Int) < 24 := by exact_mod_cast he
  have he0 : (0 : Int) ≤ (endH : Int) := Int.ofNat_nonneg endH
  refine ⟨?_, ?_, ?_, now_lt_nextVisibleTime he hq⟩
  · rw [nextVisibleTime_of_quiet hq]
    unfold localDay localHour
    split <;> omega
  · rw [nextVisibleTime_of_quiet hq]
    unfold localHour
    split <;> omega
  · rw [nextVisibleTime_of_quiet hq]
    unfold localMinute
    split <;> omega

/-- C7, witness: with the default window 16→7, 08:00 is outside quiet hours
and `next_visible_time` is the identity there; 20:00 on day 0 is inside,
and the computed visibility is 07:00 on day 1 (minute 1860), strictly in
the future — the test vector given in the spec. -/
theorem C7_witness :
    (isQuietHours 16 7 480 = false ∧ nextVisibleTime 16 7 480 = 480)
    ∧ (isQuietHours 16 7 1200 = true
       ∧ localDay (nextVisibleTime 16 7 1200) = 1
       ∧ localHour (nextVisibleTime 16 7 1200) = 7
       ∧ localMinute (nextVisibleTime 16 7 1200) = 0
       ∧ 1200 < nextVisibleTime 16 7 1200) := by
  refine ⟨⟨by decide, C7_quiet_hours.2.1 16 7 480 (by decide)⟩, ⟨by decide, ?_⟩⟩
  have h := C7_quiet_hours.2.2 16 7 1200 (by decide) (by decide)
  refine ⟨?_, h.2.1, h.2.2.1, h.2.2.2⟩
  rw [h.1]
  decide

/-! ### Claim C8 -/

/-- C8: the auto-archive sweep archives exactly the patients with status
Discharged and `discharged_at ≤ now − grace_days` and reports their count;
a Discharged patient discharged exactly `grace_days` ago is eligible, one
discharged a day later is not; a run with zero eligible patients leaves the
table untouched and reports success. -/
theorem C8_auto_archive :
    (∀ (grace now : Int) (p : LPatient),
      autoArchiveEligible grace now p = true ↔
        (p.status = .discharged ∧ ∃ d, p.discharged_at = some d ∧ d ≤ now - grace))
    ∧ (∀ (db : List LPatient) (grace now : Int),
      (autoArchivePatients db grace now).count
        = (db.filter (autoArchiveEligible grace now)).length)
    ∧ (∀ (db : List LPatient) (grace now : Int),
      (autoArchivePatients db grace now).patients
        = db.map (fun p => if autoArchiveEligible grace now p then archiveNow p now else p))
    ∧ (∀ (grace now : Int) (a : Option Int),
      autoArchiveEligible grace now ⟨.discharged, some (now - grace), a⟩ = true)
    ∧ (∀ (grace now : Int) (a : Option Int),
      autoArchiveEligible grace now ⟨.discharged, some (now - grace + 1), a⟩ = false)
    ∧ (∀ (db : List LPatient) (grace now : Int),
      (db.filter (autoArchiveEligible grace now)).length = 0 →
      autoArchivePatients db grace now = ⟨db, 0, "No patients to archive."⟩) := by
  refine ⟨?_, ?_, ?_, ?_, ?_, ?_⟩
  · intro grace now p
    unfold autoArchiveEligible
    cases hd : p.discharged_at <;> simp [hd]
  · intro db grace now
    simp only [autoArchivePatients]
    split
    · next h => simpa using h.symm
    · rfl
  · intro db grace now
    simp only [autoArchivePatients]
    split
    · rename_i h
      have hnil : db.filter (autoArchiveEligible grace now) = [] :=
        List.length_eq_zero.mp h
      have hall : ∀ p ∈ db, autoArchiveEligible grace now p = false := by
        intro p hp
        by_contra hne
        have : p ∈ db.filter (autoArchiveEligible grace now) :=
          List.mem_filter.mpr ⟨hp, by simpa using hne⟩
        simp [hnil] at this
      have : ∀ p ∈ db,
          (if autoArchiveEligible grace now p then archiveNow p now else p) = p := by
        intro p hp
        rw [if_neg]
        simp [hall p hp]
      exact ((List.map_congr_left this).trans db.map_id).symm
    · rfl
  · intro grace now a
    simp [autoArchiveEligible]
  · intro grace now a
    simp [autoArchiveEligible]
  · intro db grace now h
    simp only [autoArchivePatients]
    rw [if_pos h]

/-- C8, witness: with a 7-day grace period at day 100, a patient discharged
on day 93 is eligible, one discharged on day 94 is not, and a sweep over an
empty table is a successful no-op. -/
theorem C8_witness :
    autoArchiveEligible 7 100 ⟨.discharged, some 93, none⟩ = true
    ∧ autoArchiveEligible 7 100 ⟨.discharged, some 94, none⟩ = false
    ∧ autoArchivePatients [] 7 100 = ⟨[], 0, "No patients to archive."⟩ := by
  refine ⟨by decide, by decide, C8_auto_archive.2.2.2.2.2 [] 7 100 (by decide)⟩

end Hospitalist
